import Mathlib

/-!
Shallow embedding of the assignment-problem compiler and decoder of
`plan-magic` (`src/components/LPSolver.vue`, `solve` and `canSolve`).

The pipeline is: extract student names and weight rows from raw
spreadsheet data, build a CPLEX-format binary integer program, hand the
text to an external MILP solver, and decode the solver's raw result back
into typed assignments.  All of it is modelled here as executable Lean
functions over `ℚ` (JS numbers carrying exact decimal data), `String`
and `List`, with JS `undefined` rendered as `Option.none`.
-/

namespace PlanMagic

/-- A raw spreadsheet cell, as produced by the file-upload component and
consumed through `props.rawData` (a JS `any[][]`): a cell is either
absent/undefined, a number, or a string. -/
inductive Cell where
  | empty : Cell
  | num (q : ℚ) : Cell
  | text (s : String) : Cell
deriving DecidableEq

/-- One row of `props.rawData`.  `none` models an absent (`undefined`)
row, which the extraction loop skips via `if (!row ...) continue`. -/
abbrev Row := Option (List Cell)

/-- JS array indexing `row[j]`: out-of-range access yields `undefined`,
modelled as `Cell.empty`. -/
def getCell (r : List Cell) (j : Nat) : Cell := r.getD j .empty

/-- JS character-class test used by `String.prototype.trim` (restricted
to the ASCII whitespace actually occurring in spreadsheet data). -/
def isWs (c : Char) : Bool := c.isWhitespace

/-- JS `String.prototype.trim`: strip whitespace from both ends. -/
def jsTrim (s : String) : String :=
  ⟨((s.data.dropWhile isWs).reverse.dropWhile isWs).reverse⟩

/-- Lower-case an ASCII character, as JS `toLowerCase` does on the
ASCII-only solver status strings. -/
def lowerChar (c : Char) : Char :=
  if 65 ≤ c.toNat ∧ c.toNat ≤ 90 then Char.ofNat (c.toNat + 32) else c

/-- JS `String.prototype.toLowerCase` (ASCII fragment). -/
def jsToLower (s : String) : String := ⟨s.data.map lowerChar⟩

/-- Numeric value of a run of decimal digit characters. -/
def digitsVal (ds : List Char) : Nat :=
  ds.foldl (fun a c => a * 10 + (c.toNat - 48)) 0

/-- JS `parseFloat` on a string: skip leading whitespace, then parse an
optional sign, decimal digits with an optional fractional part and an
optional exponent, as the longest valid prefix; `none` models the `NaN`
result on input with no leading numeric prefix.  The value is assembled
with integer arithmetic and a single `mkRat` so that it is exact. -/
def jsParseFloat (s : String) : Option ℚ :=
  let l := s.data.dropWhile isWs
  let (sign, l) :=
    match l with
    | '-' :: t => ((-1 : Int), t)
    | '+' :: t => ((1 : Int), t)
    | _ => ((1 : Int), l)
  let intDs := l.takeWhile Char.isDigit
  let l := l.dropWhile Char.isDigit
  let (fracDs, l) :=
    match l with
    | '.' :: t => (t.takeWhile Char.isDigit, t.dropWhile Char.isDigit)
    | _ => ([], l)
  if intDs.isEmpty ∧ fracDs.isEmpty then none
  else
    let k := fracDs.length
    let mant : Int := sign * (digitsVal intDs * 10 ^ k + digitsVal fracDs)
    let expo : Int :=
      match l with
      | 'e' :: t | 'E' :: t =>
        let (esign, t) :=
          match t with
          | '-' :: u => ((-1 : Int), u)
          | '+' :: u => ((1 : Int), u)
          | _ => ((1 : Int), t)
        let eDs := t.takeWhile Char.isDigit
        if eDs.isEmpty then 0 else esign * digitsVal eDs
      | _ => 0
    if 0 ≤ expo then some (mkRat (mant * 10 ^ expo.toNat) (10 ^ k))
    else some (mkRat mant (10 ^ (k + (-expo).toNat)))

/-- `String(row[0] || '')`: an absent cell, the number `0` (falsy) and
the empty string all stringify to `""`; other values stringify. -/
def cellToName : Cell → String
  | .empty => ""
  | .num q => if q = 0 then "" else toString q
  | .text s => s

/-- `parseFloat(row[j]) || 0`: a numeric cell passes through, a string
cell is parsed with `parseFloat`, and a failed parse (`NaN`, falsy)
defaults to `0`. -/
def cellToWeight : Cell → ℚ
  | .empty => 0
  | .num q => q
  | .text s => (jsParseFloat s).getD 0

/-- One iteration of the extraction loop (`solve`, lines 56–74): skip
absent and empty rows, trim column 0 as the student name, skip the row
if the name is empty, and otherwise read columns `1 .. headers.length-1`
as the weight row (missing and non-numeric cells coerce to 0). -/
def extractRow (headersLength : Nat) (row : Row) : Option (String × List ℚ) :=
  match row with
  | none => none
  | some r =>
    if r.length = 0 then none
    else
      let studentName := jsTrim (cellToName (getCell r 0))
      if studentName = "" then none
      else
        some (studentName,
          (List.range (headersLength - 1)).map fun k => cellToWeight (getCell r (k + 1)))

/-- The `students` array accumulated by the extraction loop. -/
def extractStudents (rawData : List Row) (headersLength : Nat) : List String :=
  rawData.filterMap fun row => (extractRow headersLength row).map Prod.fst

/-- The `weights` matrix accumulated by the extraction loop. -/
def extractWeights (rawData : List Row) (headersLength : Nat) : List (List ℚ) :=
  rawData.filterMap fun row => (extractRow headersLength row).map Prod.snd

/-- Per-project capacity record (`ProjectLimits` in the source): `min`
is a number, `max` is a number that may be `Infinity` ("no upper
bound"), modelled as `none`. -/
structure ProjectLimits where
  min : ℚ
  max : Option ℚ
deriving DecidableEq

/-- The guard `canSolve` (lines 33–37): data present, limits present,
and the limit count equal to `headers.length - 1`.  (With the
`limits.length > 0` conjunct, truncated `Nat` subtraction agrees with
the JS integer `headers.length - 1`.) -/
def canSolve (tableDataLength headersLength : Nat) (limits : List ProjectLimits) : Bool :=
  decide (0 < tableDataLength) && decide (0 < limits.length) &&
    decide (limits.length = headersLength - 1)

/-- Decision-variable name `x_<studentIndex>_<projectIndex>` (line 96). -/
def varName (i j : Nat) : String :=
  "x_" ++ toString i ++ "_" ++ toString j

/-- The `objectiveTerms` array (lines 93–103): one term
`"<weight> <varName>"` per (student, project) pair with non-zero
weight, students outer, projects inner; `weights[i]?.[j] ?? 0` is
`getD`. -/
def objectiveTerms (weights : List (List ℚ)) (numStudents numProjects : Nat) : List String :=
  (List.range numStudents).flatMap fun i =>
    (List.range numProjects).filterMap fun j =>
      let weight := (weights.getD i []).getD j 0
      if weight ≠ 0 then some (toString weight ++ " " ++ varName i j) else none

/-- The objective row appended at line 104:
`' ' + (terms.length > 0 ? terms.join(' + ') : '0') + '\n'` after the
`' obj:'` of line 90. -/
def objectiveLine (weights : List (List ℚ)) (numStudents numProjects : Nat) : String :=
  " obj:" ++ " " ++
    (if 0 < (objectiveTerms weights numStudents numProjects).length then
      String.intercalate " + " (objectiveTerms weights numStudents numProjects)
    else "0") ++ "\n"

/-- The one-hot constraint row for student `i` (lines 109–115). -/
def studentLine (numProjects i : Nat) : String :=
  " student_" ++ toString i ++ ": " ++
    String.intercalate " + " ((List.range numProjects).map fun j => varName i j) ++
    " = 1\n"

/-- All student one-hot constraint rows, in student order. -/
def studentConstraintLines (numStudents numProjects : Nat) : List String :=
  (List.range numStudents).map (studentLine numProjects)

/-- The left-hand sum `x_0_j + ... + x_<ns-1>_j` of project `j`'s
capacity constraints (lines 119–122). -/
def projectTermsSum (numStudents j : Nat) : String :=
  String.intercalate " + " ((List.range numStudents).map fun i => varName i j)

/-- The `project_<j>_min` constraint row (line 130). -/
def projectMinLine (numStudents j : Nat) (minLimit : ℚ) : String :=
  " project_" ++ toString j ++ "_min: " ++ projectTermsSum numStudents j ++
    " >= " ++ toString minLimit ++ "\n"

/-- The `project_<j>_max` constraint row (line 133). -/
def projectMaxLine (numStudents j : Nat) (maxLimit : ℚ) : String :=
  " project_" ++ toString j ++ "_max: " ++ projectTermsSum numStudents j ++
    " <= " ++ toString maxLimit ++ "\n"

/-- The capacity rows emitted for project `j` (lines 118–135): nothing
for an absent limit record (`if (!projectLimit) continue`), the min row
only when `minLimit > 0`, the max row only when `maxLimit < Infinity`
(`max = some m`). -/
def projectConstraintLines (numStudents : Nat) (limits : List ProjectLimits) (j : Nat) :
    List String :=
  match limits.get? j with
  | none => []
  | some projectLimit =>
    (if 0 < projectLimit.min then [projectMinLine numStudents j projectLimit.min] else []) ++
      (match projectLimit.max with
       | some m => [projectMaxLine numStudents j m]
       | none => [])

/-- The `Bounds` rows (lines 140–144): `0 <= x_i_j <= 1` for every
pair, students outer. -/
def boundsLines (numStudents numProjects : Nat) : List String :=
  (List.range numStudents).flatMap fun i =>
    (List.range numProjects).map fun j => " 0 <= " ++ varName i j ++ " <= 1\n"

/-- The `Binary` rows (lines 147–151). -/
def binaryLines (numStudents numProjects : Nat) : List String :=
  (List.range numStudents).flatMap fun i =>
    (List.range numProjects).map fun j => " " ++ varName i j ++ "\n"

/-- The full CPLEX-format problem text built in `solve` (lines 89–153). -/
def lpProblem (weights : List (List ℚ)) (limits : List ProjectLimits)
    (numStudents numProjects : Nat) : String :=
  "Minimize\n" ++ " obj:" ++
    (" " ++
      (if 0 < (objectiveTerms weights numStudents numProjects).length then
        String.intercalate " + " (objectiveTerms weights numStudents numProjects)
      else "0") ++ "\n") ++
    "Subject To\n" ++
    String.join (studentConstraintLines numStudents numProjects) ++
    String.join ((List.range numProjects).flatMap (projectConstraintLines numStudents limits)) ++
    "Bounds\n" ++ String.join (boundsLines numStudents numProjects) ++
    "Binary\n" ++ String.join (binaryLines numStudents numProjects) ++
    "End"

/-- Substring test on character lists: some suffix of `l` starts with
`pat`.  This is JS `String.prototype.includes`. -/
def listContainsSub (pat : List Char) : List Char → Bool
  | [] => pat.isEmpty
  | c :: rest => List.isPrefixOf pat (c :: rest) || listContainsSub pat rest

/-- JS `s.includes(pat)`. -/
def includesSub (s pat : String) : Bool := listContainsSub pat.data s.data

/-- JS `x || d` for an optional string `x`: `undefined` and `""` are
falsy and give `d`. -/
def jsOrStr (x : Option String) (d : String) : String :=
  match x with
  | some s => if s = "" then d else s
  | none => d

/-- JS template-literal interpolation of a possibly-undefined string:
`undefined` stringifies to `"undefined"`. -/
def jsTemplateStr (x : Option String) : String := x.getD "undefined"

/-- A column record of the raw solver result.  `primal = some p` models
a column object that has a defined `Primal` property
(`'Primal' in column && column.Primal !== undefined`); `none` models a
column without one (e.g. in infeasible partial output). -/
structure SolverColumn where
  primal : Option ℚ
deriving DecidableEq

/-- The raw result returned by `highs.solve`: a status string (possibly
`undefined`), an optional scalar objective value, and a mapping from
variable name to column record (possibly `undefined` as a whole). -/
structure RawResult where
  status : Option String
  objectiveValue : Option ℚ
  columns : Option (List (String × SolverColumn))
deriving DecidableEq

/-- `result.Columns?.[name]`: optional chaining then map lookup. -/
def colLookup (res : RawResult) (name : String) : Option SolverColumn :=
  match res.columns with
  | none => none
  | some cols => cols.lookup name

/-- The decoder's acceptance test (lines 179–180):
`status === 'Optimal' || status.toLowerCase().includes('feasible')`
with `status = result.Status || ''`. -/
def isOptimalOrFeasible (res : RawResult) : Bool :=
  jsOrStr res.status "" == "Optimal"
    || includesSub (jsToLower (jsOrStr res.status "")) "feasible"

/-- The binary threshold of line 196: `column.Primal > 0.5`, the `0.5`
written as the exact rational `mkRat 1 2`. -/
def primalAbove (res : RawResult) (i j : Nat) : Bool :=
  match colLookup res (varName i j) with
  | some column =>
    match column.primal with
    | some p => decide (mkRat 1 2 < p)
    | none => false
  | none => false

/-- A decoded assignment (the `Assignment` interface, lines 10–14). -/
structure Assignment where
  studentName : String
  projectIndex : Nat
  weight : ℚ
deriving DecidableEq

/-- The inner loop body of the assignment extraction (lines 190–204)
for student row `i`: skip the row when the name is falsy
(`if (!studentName ...) continue`), otherwise emit one `Assignment`
per project `j` whose variable's column passes the `Primal` threshold,
carrying `studentWeights[j] ?? 0`. -/
def decodeRow (res : RawResult) (numProjects i : Nat)
    (studentName : String) (studentWeights : List ℚ) : List Assignment :=
  if studentName = "" then []
  else
    (List.range numProjects).filterMap fun j =>
      if primalAbove res i j then
        some ⟨studentName, j, studentWeights.getD j 0⟩
      else none

/-- The assignment-extraction loop on an accepted result (lines
186–205): for every (student, project) pair whose variable's column has
a `Primal` strictly above the threshold, emit one `Assignment`; rows
with an absent name or weight entry are skipped
(`if (!studentName || !studentWeights) continue`). -/
def decodeAssignments (res : RawResult) (students : List String)
    (weights : List (List ℚ)) (numStudents numProjects : Nat) : List Assignment :=
  (List.range numStudents).flatMap fun i =>
    match students.get? i, weights.get? i with
    | some studentName, some studentWeights =>
      decodeRow res numProjects i studentName studentWeights
    | _, _ => []

/-- What the decoder publishes (lines 176–212): the displayed status,
the acceptance flag, the objective value, the `solution` ref content,
the error message (if any), and the `solution-updated` event payload. -/
structure DecodedSolution where
  solveStatus : String
  accepted : Bool
  objectiveValue : Option ℚ
  assignments : List Assignment
  errorMessage : Option String
  emitted : List Assignment
deriving DecidableEq

/-- The decoder (lines 176–212).  On accept: objective value
`result.ObjectiveValue ?? 0`, assignments from the extraction loop,
emitted as the `solution-updated` payload.  Otherwise: assignments stay
cleared, an error message is set, and `[]` is emitted. -/
def decodeSolution (res : RawResult) (students : List String)
    (weights : List (List ℚ)) (numStudents numProjects : Nat) : DecodedSolution :=
  let solveStatus := jsOrStr res.status "Unknown"
  if isOptimalOrFeasible res then
    let assignments := decodeAssignments res students weights numStudents numProjects
    { solveStatus
      accepted := true
      objectiveValue := some (res.objectiveValue.getD 0)
      assignments
      errorMessage := none
      emitted := assignments }
  else
    { solveStatus
      accepted := false
      objectiveValue := none
      assignments := []
      errorMessage := some ("Solver status: " ++ jsTemplateStr res.status ++
        ". The problem may be infeasible or unbounded.")
      emitted := [] }

/-- The two model-building failures thrown inside `try` (lines 76–86). -/
inductive SolveError where
  | noValidStudents : SolveError
  | inconsistentWeights : SolveError
deriving DecidableEq

/-- The `Error.message` texts of the two throws. -/
def solveErrorMessage : SolveError → String
  | .noValidStudents => "No valid students found in the data"
  | .inconsistentWeights => "Inconsistent number of project weights"

/-- Model building from extracted data (lines 76–86 followed by the
problem-text construction): fail when no students survived extraction,
fail when some weight row's length differs from
`numProjects = projectLimits.length`, and otherwise produce the problem
text. -/
def buildModel (students : List String) (weights : List (List ℚ))
    (limits : List ProjectLimits) : Except SolveError String :=
  if students.length = 0 then .error .noValidStudents
  else if weights.any (fun w => decide (w.length ≠ limits.length)) then
    .error .inconsistentWeights
  else .ok (lpProblem weights limits students.length limits.length)

/-- The component's reactive state touched by `solve`: the busy flag and
the four published refs (lines 27–31). -/
structure SolverState where
  isSolving : Bool
  solution : List Assignment
  objectiveValue : Option ℚ
  solveStatus : String
  errorMessage : String
deriving DecidableEq

/-- Outcome of the external-solver step (the only suspending step):
either the dynamic `import('highs')` / WASM load / `highs.solve` call
threw (with the message the `catch` block extracts), or it returned a
raw result. -/
inductive SolverOutcome where
  | loadOrSolveFailure (message : String) : SolverOutcome
  | returned (res : RawResult) : SolverOutcome
deriving DecidableEq

/-- One full run of `solve` (lines 39–220) as a state transition.  Input
state `st` is the previously published state; the second component of
the result is the payload of the `solution-updated` event, `none` when
no event was emitted.  The `!canSolve` guard (lines 40–43) returns
early, setting only the error message; otherwise the published state is
cleared (lines 45–49), the model is built, the solver outcome is
decoded, and the `catch`/`finally` blocks turn every failure into an
error message with `isSolving` reset. -/
def solveRun (st : SolverState) (tableDataLength : Nat) (rawData : List Row)
    (headersLength : Nat) (limits : List ProjectLimits) (outcome : SolverOutcome) :
    SolverState × Option (List Assignment) :=
  if canSolve tableDataLength headersLength limits = false then
    ({ st with errorMessage := "Cannot solve: Missing data or project limits" }, none)
  else
    let st₁ : SolverState :=
      { isSolving := true, solution := [], objectiveValue := none,
        solveStatus := "", errorMessage := "" }
    let students := extractStudents rawData headersLength
    let weights := extractWeights rawData headersLength
    match buildModel students weights limits with
    | .error e =>
      ({ st₁ with errorMessage := solveErrorMessage e, isSolving := false }, none)
    | .ok _lp =>
      match outcome with
      | .loadOrSolveFailure msg =>
        ({ st₁ with errorMessage := msg, isSolving := false }, none)
      | .returned res =>
        let d := decodeSolution res students weights students.length limits.length
        ({ st₁ with
            solveStatus := d.solveStatus
            objectiveValue := d.objectiveValue
            solution := d.assignments
            errorMessage := d.errorMessage.getD ""
            isSolving := false },
          some d.emitted)

/-- Spec-side statement of the decoder's acceptance rule, written from
the spec's words: the status equals `"Optimal"`, or its lower-casing
contains `"feasible"` as a substring.  Used to compare against the
code's `isOptimalOrFeasible`. -/
def acceptsSpec (status : String) : Prop :=
  status = "Optimal" ∨ ∃ pre post : String, jsToLower status = pre ++ "feasible" ++ post

/-- Spec-side enumeration of the objective's terms, written from the
spec's words: all (student, project) pairs, students outer and projects
inner, restricted to pairs with non-zero weight.  Used to compare
against the code's `objectiveTerms`. -/
def specObjectivePairs (weights : List (List ℚ)) (numStudents numProjects : Nat) :
    List (Nat × Nat) :=
  ((List.range numStudents).flatMap fun i =>
      (List.range numProjects).map fun j => (i, j)).filter
    fun q => decide ((weights.getD q.1 []).getD q.2 0 ≠ 0)

/-- Every row the extraction loop keeps contributes a weight row of
length `headers.length - 1` (the inner loop runs `j = 1` to
`headers.length - 1`). -/
theorem extractRow_snd_length {headersLength : Nat} {row : Row} {p : String × List ℚ}
    (h : extractRow headersLength row = some p) : p.2.length = headersLength - 1 := by
  cases row with
  | none => simp [extractRow] at h
  | some r =>
    simp only [extractRow] at h
    split at h
    · exact absurd h (by simp)
    · split at h
      · exact absurd h (by simp)
      · cases Option.some.inj h
        simp

/-- C10: every weight row produced by extraction has length exactly
`headers.length - 1`; hence whenever the solve guard condition
`projectLimits.length = headers.length - 1` holds, every weight row's
length equals the project count and the
`'Inconsistent number of project weights'` branch is unreachable. -/
theorem weight_rows_consistent :
    ∀ (rawData : List Row) (headersLength : Nat) (limits : List ProjectLimits),
      (∀ w ∈ extractWeights rawData headersLength, w.length = headersLength - 1) ∧
      (limits.length = headersLength - 1 →
        ∀ students : List String,
          buildModel students (extractWeights rawData headersLength) limits
            ≠ Except.error SolveError.inconsistentWeights) := by
  intro rawData headersLength limits
  have hlen : ∀ w ∈ extractWeights rawData headersLength, w.length = headersLength - 1 := by
    intro w hw
    rw [extractWeights, List.mem_filterMap] at hw
    obtain ⟨row, _, hrow⟩ := hw
    obtain ⟨p, hp, hpw⟩ := Option.map_eq_some'.mp hrow
    exact hpw ▸ extractRow_snd_length hp
  refine ⟨hlen, fun hdim students => ?_⟩
  have hany : (extractWeights rawData headersLength).any
      (fun w => decide (w.length ≠ limits.length)) = false := by
    rw [List.any_eq_false]
    intro w hw
    simp [hlen w hw, hdim]
  by_cases hs : students.length = 0
  · simp [buildModel, hs]
  · rw [buildModel, if_neg hs, if_neg (by rw [hany]; simp)]
    simp

/-- C10 witness: a concrete instantiation of both conjuncts. -/
theorem weight_rows_consistent_witness :
    ([(5 : ℚ)].length = 2 - 1) ∧
    (buildModel ["Ana"] (extractWeights [some [Cell.text "Ana", Cell.num 5]] 2) [⟨0, some 10⟩]
      ≠ Except.error SolveError.inconsistentWeights) :=
  ⟨(weight_rows_consistent [some [Cell.text "Ana", Cell.num 5]] 2 [⟨0, some 10⟩]).1
      [(5 : ℚ)] (by decide),
    (weight_rows_consistent [some [Cell.text "Ana", Cell.num 5]] 2 [⟨0, some 10⟩]).2
      (by decide) ["Ana"]⟩

/-- C7: when the capacity-limit count disagrees with the project count
(`headers.length - 1`), the guard fails and `solve` aborts with its
error message before any model is built or handed to the solver; and
when a weight row's length disagrees with the project count, model
building fails with the `'Inconsistent number of project weights'`
error. -/
theorem dimension_mismatch_fails :
    ∀ (st : SolverState) (tableDataLength : Nat) (rawData : List Row)
      (headersLength : Nat) (limits : List ProjectLimits) (outcome : SolverOutcome)
      (students : List String) (weights : List (List ℚ)),
      (limits.length ≠ headersLength - 1 →
        solveRun st tableDataLength rawData headersLength limits outcome
          = ({ st with errorMessage := "Cannot solve: Missing data or project limits" }, none)) ∧
      (students.length = weights.length →
        (∃ w ∈ weights, w.length ≠ limits.length) →
        buildModel students weights limits = Except.error SolveError.inconsistentWeights) := by
  intro st tableDataLength rawData headersLength limits outcome students weights
  constructor
  · intro hne
    have hguard : canSolve tableDataLength headersLength limits = false := by
      simp [canSolve, hne]
    rw [solveRun, if_pos hguard]
  · intro hpar ⟨w, hw, hwne⟩
    have hne : students.length ≠ 0 := by
      rw [hpar]
      exact Nat.pos_iff_ne_zero.mp (List.length_pos.mpr (List.ne_nil_of_mem hw))
    rw [buildModel, if_neg hne, if_pos]
    rw [List.any_eq_true]
    exact ⟨w, hw, by simpa using hwne⟩

/-- C7 witness: 3 projects (4 headers) but only 2 capacity records
aborts the solve, and a weight row of length 2 against 1 project fails
model building. -/
theorem dimension_mismatch_fails_witness :
    ((2 : Nat) ≠ 4 - 1 ∧
      solveRun ⟨false, [], none, "", ""⟩ 1 [some [Cell.text "Ana", Cell.num 1, Cell.num 2, Cell.num 3]]
          4 [⟨0, some 10⟩, ⟨0, some 10⟩] (SolverOutcome.loadOrSolveFailure "x")
        = ({ isSolving := false, solution := [], objectiveValue := none, solveStatus := "",
              errorMessage := "Cannot solve: Missing data or project limits" }, none)) ∧
    buildModel ["Ana"] [[1, 2]] [⟨0, some 10⟩]
      = Except.error SolveError.inconsistentWeights :=
  ⟨⟨by decide,
      (dimension_mismatch_fails ⟨false, [], none, "", ""⟩ 1
          [some [Cell.text "Ana", Cell.num 1, Cell.num 2, Cell.num 3]] 4
          [⟨0, some 10⟩, ⟨0, some 10⟩] (SolverOutcome.loadOrSolveFailure "x") ["Ana"] [[1, 2]]).1
        (by decide)⟩,
    (dimension_mismatch_fails ⟨false, [], none, "", ""⟩ 1
        [some [Cell.text "Ana", Cell.num 1, Cell.num 2, Cell.num 3]] 4
        [⟨0, some 10⟩] (SolverOutcome.loadOrSolveFailure "x") ["Ana"] [[1, 2]]).2
      (by decide) ⟨[1, 2], by decide, by decide⟩⟩

/-- C8: extraction skips absent rows, empty rows and rows whose
column-0 value trims to the empty string (such a row contributes no
student), coerces every unparsable weight cell to `0` instead of
failing, and model building fails with the no-valid-students error
exactly when zero students remain after filtering. -/
theorem extraction_filtering :
    ∀ (headersLength : Nat) (limits : List ProjectLimits) (rawData : List Row) (row : Row),
      ((row = none ∨ row = some [] ∨
          (∃ cells, row = some cells ∧ jsTrim (cellToName (getCell cells 0)) = "")) →
        extractRow headersLength row = none ∧
        extractStudents (row :: rawData) headersLength
          = extractStudents rawData headersLength) ∧
      (∀ s, jsParseFloat s = none → cellToWeight (Cell.text s) = 0) ∧
      (buildModel (extractStudents rawData headersLength)
          (extractWeights rawData headersLength) limits
          = Except.error SolveError.noValidStudents
        ↔ extractStudents rawData headersLength = []) := by
  intro headersLength limits rawData row
  refine ⟨fun hskip => ?_, fun s hs => ?_, ?_⟩
  · have hnone : extractRow headersLength row = none := by
      rcases hskip with h | h | ⟨cells, hcells, hname⟩
      · simp [h, extractRow]
      · simp [h, extractRow]
      · subst hcells
        simp [extractRow, hname]
    exact ⟨hnone, by simp [extractStudents, hnone]⟩
  · simp [cellToWeight, hs]
  · constructor
    · intro herr
      by_contra hne
      have hlen : (extractStudents rawData headersLength).length ≠ 0 := by
        simpa [List.length_eq_zero] using hne
      rw [buildModel, if_neg hlen] at herr
      split at herr
      · exact absurd (Except.error.inj herr) (by simp)
      · exact absurd herr (by simp)
    · intro hnil
      rw [buildModel, if_pos (by simp [hnil])]

/-- C8 witness: a whitespace-only name is skipped, `"abc"` coerces to
weight `0`, and an all-filtered table yields the no-valid-students
error. -/
theorem extraction_filtering_witness :
    (extractRow 2 (some [Cell.text " "]) = none ∧
      extractStudents [some [Cell.text " "]] 2 = extractStudents [] 2) ∧
    cellToWeight (Cell.text "abc") = 0 ∧
    buildModel (extractStudents [some [Cell.text " "]] 2)
        (extractWeights [some [Cell.text " "]] 2) [⟨0, some 10⟩]
      = Except.error SolveError.noValidStudents :=
  ⟨(extraction_filtering 2 [⟨0, some 10⟩] [] (some [Cell.text " "])).1
      (Or.inr (Or.inr ⟨[Cell.text " "], rfl, by decide⟩)),
    (extraction_filtering 2 [⟨0, some 10⟩] [] (some [Cell.text " "])).2.1 "abc" (by decide),
    (extraction_filtering 2 [⟨0, some 10⟩] [some [Cell.text " "]] none).2.2.mpr (by decide)⟩

/-- C2 (code bug): the decoder's acceptance test evaluated at the
solver's infeasible status string.  `"Infeasible"` lower-cases to
`"infeasible"`, which contains the substring `"feasible"`, so
`isOptimalOrFeasible` is `true` and the decoder takes the accept branch
(objective value set, no error message) instead of classifying the
result as infeasible. -/
theorem infeasible_status_accepted :
    isOptimalOrFeasible ⟨some "Infeasible", some 0, some []⟩ = true ∧
    (decodeSolution ⟨some "Infeasible", some 0, some []⟩ ["Ana"] [[5]] 1 1).accepted = true ∧
    (decodeSolution ⟨some "Infeasible", some 0, some []⟩ ["Ana"] [[5]] 1 1).errorMessage
      = none ∧
    (decodeSolution ⟨some "Infeasible", some 0, some []⟩ ["Ana"] [[5]] 1 1).objectiveValue
      = some 0 := by
  decide

/-- The character-list substring test succeeds exactly when the list
splits around the pattern. -/
theorem listContainsSub_iff (pat l : List Char) :
    listContainsSub pat l = true ↔ ∃ l₁ l₂ : List Char, l = l₁ ++ pat ++ l₂ := by
  induction l with
  | nil =>
    simp only [listContainsSub, List.isEmpty_iff]
    constructor
    · intro h
      exact ⟨[], [], by simp [h]⟩
    · rintro ⟨l₁, l₂, h⟩
      rcases List.append_eq_nil.mp h.symm with ⟨h₁, -⟩
      exact (List.append_eq_nil.mp h₁).2
  | cons c rest ih =>
    simp only [listContainsSub, Bool.or_eq_true, ih]
    constructor
    · rintro (hpre | ⟨l₁, l₂, h⟩)
      · obtain ⟨t, ht⟩ := List.isPrefixOf_iff_prefix.mp hpre
        exact ⟨[], t, by simp [← ht]⟩
      · exact ⟨c :: l₁, l₂, by simp [h]⟩
    · rintro ⟨l₁, l₂, h⟩
      cases l₁ with
      | nil =>
        exact Or.inl (List.isPrefixOf_iff_prefix.mpr ⟨l₂, by simp [h]⟩)
      | cons a t =>
        simp only [List.cons_append] at h
        injection h with h₁ h₂
        exact Or.inr ⟨t, l₂, h₂⟩

/-- String-level version: JS `s.includes(pat)` succeeds exactly when
`s` splits around `pat`. -/
theorem includesSub_iff (s pat : String) :
    includesSub s pat = true ↔ ∃ pre post : String, s = pre ++ pat ++ post := by
  rw [includesSub, listContainsSub_iff]
  constructor
  · rintro ⟨l₁, l₂, h⟩
    refine ⟨⟨l₁⟩, ⟨l₂⟩, String.ext ?_⟩
    simpa [String.data_append] using h
  · rintro ⟨pre, post, h⟩
    exact ⟨pre.data, post.data, by rw [h]; simp [String.data_append]⟩

/-- C1: the decoder accepts a raw result — proceeds to extract
assignments — exactly when the status string equals `"Optimal"` or
contains the case-insensitive substring `"feasible"`; for every other
status it short-circuits with an empty assignment set (and emits an
empty payload). -/
theorem decoder_accepts_iff :
    ∀ (res : RawResult) (students : List String) (weights : List (List ℚ))
      (numStudents numProjects : Nat),
      ((decodeSolution res students weights numStudents numProjects).accepted = true
        ↔ acceptsSpec (jsOrStr res.status "")) ∧
      ((decodeSolution res students weights numStudents numProjects).accepted = false →
        (decodeSolution res students weights numStudents numProjects).assignments = [] ∧
        (decodeSolution res students weights numStudents numProjects).emitted = []) := by
  intro res students weights numStudents numProjects
  have hacc : (decodeSolution res students weights numStudents numProjects).accepted
      = isOptimalOrFeasible res := by
    simp only [decodeSolution]
    split
    · rename_i h
      exact h.symm
    · rename_i h
      simp only [Bool.not_eq_true] at h
      exact h.symm
  have hiff : isOptimalOrFeasible res = true ↔ acceptsSpec (jsOrStr res.status "") := by
    rw [isOptimalOrFeasible, acceptsSpec, Bool.or_eq_true, beq_iff_eq, includesSub_iff]
  refine ⟨hacc ▸ hiff, fun hrej => ?_⟩
  rw [hacc] at hrej
  simp only [decodeSolution]
  split
  · rename_i h
    rw [h] at hrej
    exact absurd hrej (by simp)
  · exact ⟨rfl, rfl⟩

/-- C1 witness: `"Optimal"` is accepted; the rejected status `"Bad"`
leaves the assignment set and the emitted payload empty. -/
theorem decoder_accepts_iff_witness :
    ((decodeSolution ⟨some "Optimal", some 5, some []⟩ ["Ana"] [[5]] 1 1).accepted = true) ∧
    ((decodeSolution ⟨some "Bad", none, none⟩ ["Ana"] [[5]] 1 1).assignments = [] ∧
      (decodeSolution ⟨some "Bad", none, none⟩ ["Ana"] [[5]] 1 1).emitted = []) :=
  ⟨(decoder_accepts_iff ⟨some "Optimal", some 5, some []⟩ ["Ana"] [[5]] 1 1).1.mpr
      (Or.inl (by decide)),
    (decoder_accepts_iff ⟨some "Bad", none, none⟩ ["Ana"] [[5]] 1 1).2 (by decide)⟩

/-- A `filterMap` whose function is a guarded `some` is a `filter`
followed by a `map`. -/
theorem filterMap_guard_eq_map_filter {α β : Type} (p : α → Prop) [DecidablePred p]
    (f : α → β) (l : List α) :
    (l.filterMap fun a => if p a then some (f a) else none)
      = (l.filter fun a => decide (p a)).map f := by
  induction l with
  | nil => rfl
  | cons a t ih => by_cases h : p a <;> simp [h, ih]

/-- C5: the emitted objective has sense minimize; its term list holds
exactly one term `"<weight> x_i_j"` per (student, project) pair with
non-zero weight, enumerated students outer / projects inner; and when
every weight in range is zero the objective row degenerates to the
literal constant `0`. -/
theorem objective_structure :
    ∀ (weights : List (List ℚ)) (limits : List ProjectLimits) (ns np : Nat),
      (∃ rest, lpProblem weights limits ns np = "Minimize\n" ++ rest) ∧
      objectiveTerms weights ns np
        = (specObjectivePairs weights ns np).map
            (fun q => toString ((weights.getD q.1 []).getD q.2 0) ++ " " ++ varName q.1 q.2) ∧
      ((∀ i j, i < ns → j < np → (weights.getD i []).getD j 0 = 0) →
        objectiveLine weights ns np = " obj: 0\n") := by
  intro weights limits ns np
  refine ⟨?_, ?_, fun hzero => ?_⟩
  · simp only [lpProblem, String.append_assoc]
    exact ⟨_, rfl⟩
  · rw [specObjectivePairs, List.filter_flatMap, List.map_flatMap]
    simp only [objectiveTerms]
    congr 1
    funext i
    rw [List.filter_map, List.map_map, filterMap_guard_eq_map_filter]
    rfl
  · have hterms : objectiveTerms weights ns np = [] := by
      simp only [objectiveTerms]
      refine List.flatMap_eq_nil_iff.mpr fun i hi => ?_
      refine List.filterMap_eq_nil_iff.mpr fun j hj => ?_
      rw [if_neg]
      simpa using hzero i j (List.mem_range.mp hi) (List.mem_range.mp hj)
    rw [objectiveLine, hterms]
    rfl

/-- C5 witness: with a single all-zero weight the enumeration is empty
and the objective row is the literal `" obj: 0\n"`; with weights
`[[5, 0], [0, 3]]` the term list is the students-outer enumeration of
the two non-zero pairs. -/
theorem objective_structure_witness :
    (∃ rest, lpProblem [[0]] [⟨0, some 10⟩] 1 1 = "Minimize\n" ++ rest) ∧
    objectiveTerms [[5, 0], [0, 3]] 2 2
      = (specObjectivePairs [[5, 0], [0, 3]] 2 2).map
          (fun q => toString (([[5, 0], [0, 3]].getD q.1 []).getD q.2 (0 : ℚ)) ++ " " ++
            varName q.1 q.2) ∧
    objectiveLine [[0]] 1 1 = " obj: 0\n" :=
  ⟨(objective_structure [[0]] [⟨0, some 10⟩] 1 1).1,
    (objective_structure [[5, 0], [0, 3]] [⟨0, some 10⟩, ⟨0, some 10⟩] 2 2).2.1,
    (objective_structure [[0]] [⟨0, some 10⟩] 1 1).2.2 (by
      intro i j hi hj
      rw [Nat.lt_one_iff.mp hi, Nat.lt_one_iff.mp hj]
      decide)⟩

/-- The min and max capacity rows of a project are distinct strings:
they differ at the `_min: ` / `_max: ` marker. -/
theorem projectMinLine_ne_projectMaxLine (ns j : Nat) (a b : ℚ) :
    projectMinLine ns j a ≠ projectMaxLine ns j b := by
  intro h
  have hd := congrArg String.data h
  simp only [projectMinLine, projectMaxLine, String.data_append, List.append_assoc] at hd
  have hd₂ := List.append_cancel_left hd
  simp at hd₂

/-- Unfolding of `projectConstraintLines` at an in-range project. -/
theorem projectConstraintLines_eq (ns : Nat) (limits : List ProjectLimits) (j : Nat)
    (pl : ProjectLimits) (hpl : limits.get? j = some pl) :
    projectConstraintLines ns limits j
      = (if 0 < pl.min then [projectMinLine ns j pl.min] else []) ++
        (match pl.max with
         | some m => [projectMaxLine ns j m]
         | none => []) := by
  rw [projectConstraintLines, hpl]

/-- C6: the encoder always emits the one-hot row `student_<i>` for
every student `i`; for every project `j` it emits the lower-bound row
`project_<j>_min` iff `minCapacity > 0`, and the upper-bound row
`project_<j>_max` iff `maxCapacity` is finite. -/
theorem constraint_emission :
    ∀ (ns : Nat) (limits : List ProjectLimits) (i j : Nat) (hj : j < limits.length),
      (i < ns →
        (studentConstraintLines ns limits.length).get? i
          = some (studentLine limits.length i)) ∧
      (projectMinLine ns j (limits.get ⟨j, hj⟩).min ∈ projectConstraintLines ns limits j
        ↔ 0 < (limits.get ⟨j, hj⟩).min) ∧
      (∀ m : ℚ, (limits.get ⟨j, hj⟩).max = some m →
        projectMaxLine ns j m ∈ projectConstraintLines ns limits j) ∧
      ((limits.get ⟨j, hj⟩).max = none →
        ∀ m : ℚ, projectMaxLine ns j m ∉ projectConstraintLines ns limits j) := by
  intro ns limits i j hj
  have hget : limits.get? j = some (limits.get ⟨j, hj⟩) := List.get?_eq_get hj
  refine ⟨fun hi => ?_, ?_, fun m hm => ?_, fun hnone m hmem => ?_⟩
  · rw [studentConstraintLines, List.get?_map, List.get?_range hi]
    rfl
  · rw [projectConstraintLines_eq ns limits j _ hget]
    by_cases hpos : 0 < (limits.get ⟨j, hj⟩).min
    · rw [if_pos hpos]
      exact iff_of_true (List.mem_append_left _ (List.mem_singleton.mpr rfl)) hpos
    · rw [if_neg hpos, List.nil_append]
      constructor
      · intro hmem
        exfalso
        cases hmax : (limits.get ⟨j, hj⟩).max with
        | some m =>
          rw [hmax] at hmem
          exact projectMinLine_ne_projectMaxLine ns j _ m (List.mem_singleton.mp hmem)
        | none =>
          rw [hmax] at hmem
          exact List.not_mem_nil _ hmem
      · intro hc
        exact absurd hc hpos
  · rw [projectConstraintLines_eq ns limits j _ hget, hm]
    exact List.mem_append_right _ (List.mem_singleton.mpr rfl)
  · rw [projectConstraintLines_eq ns limits j _ hget, hnone] at hmem
    by_cases hpos : 0 < (limits.get ⟨j, hj⟩).min
    · rw [if_pos hpos] at hmem
      have hmem₁ : projectMaxLine ns j m
          ∈ [projectMinLine ns j (limits.get ⟨j, hj⟩).min] := by
        simp only [List.append_nil] at hmem
        exact hmem
      exact projectMinLine_ne_projectMaxLine ns j (limits.get ⟨j, hj⟩).min m
        (List.mem_singleton.mp hmem₁).symm
    · rw [if_neg hpos] at hmem
      simp only [List.nil_append] at hmem
      exact List.not_mem_nil _ hmem

/-- C6 witness: with one student and the single capacity record
`{min 1, max 3}` the one-hot row is at index 0, the min row and the max
row are both emitted; with `{min 0, max ∞}` the max row is absent for
any bound value. -/
theorem constraint_emission_witness :
    (studentConstraintLines 1 1).get? 0 = some (studentLine 1 0) ∧
    projectMinLine 1 0 1 ∈ projectConstraintLines 1 [⟨1, some 3⟩] 0 ∧
    projectMaxLine 1 0 3 ∈ projectConstraintLines 1 [⟨1, some 3⟩] 0 ∧
    projectMaxLine 1 0 5 ∉ projectConstraintLines 1 [⟨0, none⟩] 0 :=
  ⟨(constraint_emission 1 [⟨1, some 3⟩] 0 0 (by decide)).1 (by decide),
    (constraint_emission 1 [⟨1, some 3⟩] 0 0 (by decide)).2.1.mpr (by decide),
    (constraint_emission 1 [⟨1, some 3⟩] 0 0 (by decide)).2.2.1 3 (by decide),
    (constraint_emission 1 [⟨0, none⟩] 0 0 (by decide)).2.2.2 (by decide) 5⟩

/-- The decoder's acceptance flag equals the status test. -/
theorem decodeSolution_accepted (res : RawResult) (students : List String)
    (weights : List (List ℚ)) (ns np : Nat) :
    (decodeSolution res students weights ns np).accepted = isOptimalOrFeasible res := by
  simp only [decodeSolution]
  split
  · rename_i h
    exact h.symm
  · rename_i h
    simp only [Bool.not_eq_true] at h
    exact h.symm

/-- On an accepted status the decoder's published assignments are the
extraction loop's output. -/
theorem decodeSolution_assignments {res : RawResult} {students : List String}
    {weights : List (List ℚ)} {ns np : Nat} (h : isOptimalOrFeasible res = true) :
    (decodeSolution res students weights ns np).assignments
      = decodeAssignments res students weights ns np := by
  simp only [decodeSolution, if_pos h]

/-- Bool-guard variant of `filterMap_guard_eq_map_filter`. -/
theorem filterMap_bguard_eq_map_filter {α β : Type} (p : α → Bool) (f : α → β)
    (l : List α) :
    (l.filterMap fun a => if p a then some (f a) else none) = (l.filter p).map f := by
  induction l with
  | nil => rfl
  | cons a t ih => cases h : p a <;> simp [h, ih]

/-- Every assignment produced by a decode row carries that row's
student name. -/
theorem mem_decodeRow_name {res : RawResult} {np i : Nat} {n : String}
    {w : List ℚ} {a : Assignment} (ha : a ∈ decodeRow res np i n w) :
    a.studentName = n := by
  rw [decodeRow] at ha
  split at ha
  · exact absurd ha (List.not_mem_nil a)
  · obtain ⟨j, hj, hja⟩ := List.mem_filterMap.mp ha
    split at hja
    · cases Option.some.inj hja
      rfl
    · exact absurd hja (by simp)

/-- A `flatMap` over `range n` whose body is empty everywhere except at
one index collapses to that index's list. -/
theorem flatMap_range_eq_single {β : Type} (g : Nat → List β) (n i : Nat) (hi : i < n)
    (hz : ∀ iq, iq < n → iq ≠ i → g iq = []) :
    (List.range n).flatMap g = g i := by
  induction n with
  | zero => exact absurd hi (Nat.not_lt_zero i)
  | succ m ih =>
    rw [List.range_succ, List.flatMap_append, List.flatMap_cons, List.flatMap_nil,
      List.append_nil]
    rcases Nat.lt_succ_iff_lt_or_eq.mp hi with h | h
    · rw [ih h (fun iq hiq => hz iq (Nat.lt_succ_of_lt hiq)),
        hz m (Nat.lt_succ_self m) (by omega), List.append_nil]
    · subst h
      have hnil : (List.range i).flatMap g = [] :=
        List.flatMap_eq_nil_iff.mpr fun x hx =>
          hz x (Nat.lt_succ_of_lt (List.mem_range.mp hx))
            (Nat.ne_of_lt (List.mem_range.mp hx))
      rw [hnil, List.nil_append]

/-- C3 counterexample: an accepted result with no columns at all (as an
accepted-but-degenerate solver output can be) yields a Solution in
which the only student appears in zero Assignments, so the one-hot
property does not hold of every accepted decoded Solution. -/
theorem one_hot_counterexample :
    (decodeSolution ⟨some "Optimal", some 0, some []⟩ ["Ana"] [[5]] 1 1).accepted = true ∧
    ((decodeSolution ⟨some "Optimal", some 0, some []⟩ ["Ana"] [[5]] 1 1).assignments.filter
      fun a => a.studentName == "Ana").length = 0 := by
  decide

/-- C3 (amended): for an accepted decode, every student appears in
exactly one Assignment provided the raw result itself is one-hot — for
every student row exactly one project variable passes the `Primal`
threshold — and the student names are distinct and non-empty; the
decoder itself performs no defensive one-hot check. -/
theorem one_hot_under_one_hot_result :
    ∀ (res : RawResult) (students : List String) (weights : List (List ℚ)) (np : Nat),
      students.Nodup →
      (∀ s ∈ students, s ≠ "") →
      weights.length = students.length →
      (∀ i, i < students.length →
        ((List.range np).filter fun j => primalAbove res i j).length = 1) →
      (decodeSolution res students weights students.length np).accepted = true →
      ∀ i (hi : i < students.length),
        ((decodeSolution res students weights students.length np).assignments.filter
          fun a => a.studentName == students.get ⟨i, hi⟩).length = 1 := by
  intro res students weights np hnodup hnames hw hone hacc i hi
  rw [decodeSolution_accepted] at hacc
  rw [decodeSolution_assignments hacc, decodeAssignments, List.filter_flatMap]
  set p : Assignment → Bool := fun a => a.studentName == students.get ⟨i, hi⟩ with hp
  have hbody : ∀ iq (hiq : iq < students.length),
      (match students.get? iq, weights.get? iq with
        | some sn, some sw => decodeRow res np iq sn sw
        | _, _ => ([] : List Assignment))
        = decodeRow res np iq (students.get ⟨iq, hiq⟩)
            (weights.get ⟨iq, by omega⟩) := by
    intro iq hiq
    rw [List.get?_eq_get hiq, List.get?_eq_get (show iq < weights.length by omega)]
  have hz : ∀ iq, iq < students.length → iq ≠ i →
      (List.filter p (match students.get? iq, weights.get? iq with
        | some sn, some sw => decodeRow res np iq sn sw
        | _, _ => ([] : List Assignment))) = [] := by
    intro iq hiq hne
    rw [hbody iq hiq]
    refine List.filter_eq_nil_iff.mpr fun a ha => ?_
    have hname := mem_decodeRow_name ha
    have hgetne : students.get ⟨iq, hiq⟩ ≠ students.get ⟨i, hi⟩ := fun heq =>
      hne (congrArg Fin.val (hnodup.get_inj_iff.mp heq))
    simp only [hp, hname, beq_iff_eq]
    exact hgetne
  rw [flatMap_range_eq_single _ students.length i hi hz, hbody i hi]
  have hnm : students.get ⟨i, hi⟩ ≠ "" := hnames _ (List.get_mem students i hi)
  rw [decodeRow, if_neg hnm, filterMap_bguard_eq_map_filter, List.filter_map,
    List.filter_eq_self.mpr fun a _ => by simp [hp], List.length_map]
  exact hone i hi

/-- C3 witness: one student, one project, a one-hot raw result: the
student appears in exactly one Assignment. -/
theorem one_hot_under_one_hot_result_witness :
    ((decodeSolution ⟨some "Optimal", some 5, some [("x_0_0", ⟨some 1⟩)]⟩
        ["Ana"] [[5]] 1 1).assignments.filter
      fun a => a.studentName == "Ana").length = 1 :=
  one_hot_under_one_hot_result ⟨some "Optimal", some 5, some [("x_0_0", ⟨some 1⟩)]⟩
    ["Ana"] [[5]] 1 (by decide) (by decide) (by decide)
    (by
      intro i hi
      rw [Nat.lt_one_iff.mp hi]
      decide)
    (by decide) 0 (by decide)

/-- Membership in the decoded assignment list, characterized by row
index, project index and the `Primal` threshold test. -/
theorem mem_decodeAssignments {res : RawResult} {students : List String}
    {weights : List (List ℚ)} {np : Nat} {a : Assignment}
    (hw : weights.length = students.length) :
    a ∈ decodeAssignments res students weights students.length np
      ↔ ∃ i, ∃ hi : i < students.length, ∃ j, j < np ∧
          students.get ⟨i, hi⟩ ≠ "" ∧ primalAbove res i j = true ∧
          a = ⟨students.get ⟨i, hi⟩, j, (weights.get ⟨i, by omega⟩).getD j 0⟩ := by
  rw [decodeAssignments, List.mem_flatMap]
  constructor
  · rintro ⟨i, hirange, hmem⟩
    have hi : i < students.length := List.mem_range.mp hirange
    have hiw : i < weights.length := by omega
    rw [List.get?_eq_get hi, List.get?_eq_get hiw] at hmem
    change a ∈ decodeRow res np i (students.get ⟨i, hi⟩) (weights.get ⟨i, hiw⟩) at hmem
    rw [decodeRow] at hmem
    split at hmem
    · exact absurd hmem (List.not_mem_nil a)
    · rename_i hname
      obtain ⟨j, hjr, hja⟩ := List.mem_filterMap.mp hmem
      split at hja
      · rename_i hprim
        exact ⟨i, hi, j, List.mem_range.mp hjr, hname, hprim,
          (Option.some.inj hja).symm⟩
      · exact absurd hja (by simp)
  · rintro ⟨i, hi, j, hj, hname, hprim, ha⟩
    refine ⟨i, List.mem_range.mpr hi, ?_⟩
    have hiw : i < weights.length := by omega
    rw [List.get?_eq_get hi, List.get?_eq_get hiw]
    change a ∈ decodeRow res np i (students.get ⟨i, hi⟩) (weights.get ⟨i, hiw⟩)
    rw [decodeRow, if_neg hname]
    exact List.mem_filterMap.mpr ⟨j, List.mem_range.mpr hj, by rw [if_pos hprim, ha]⟩

/-- C4: on an accepted result, an Assignment for pair (student `i`,
project `j`) is emitted iff the variable `x_i_j`'s column is present
with a `Primal` value strictly above `0.5`; an absent column fails the
threshold test rather than erroring; and every emitted Assignment
carries exactly the original weight-matrix entry for its pair. -/
theorem decode_assignment_characterization :
    ∀ (res : RawResult) (students : List String) (weights : List (List ℚ)) (np : Nat),
      students.Nodup →
      (∀ s ∈ students, s ≠ "") →
      weights.length = students.length →
      isOptimalOrFeasible res = true →
      (∀ i (hi : i < students.length) (j : Nat), j < np →
        ((⟨students.get ⟨i, hi⟩, j, (weights.getD i []).getD j 0⟩ : Assignment)
            ∈ (decodeSolution res students weights students.length np).assignments
          ↔ primalAbove res i j = true)) ∧
      (∀ i j, colLookup res (varName i j) = none → primalAbove res i j = false) ∧
      (∀ a ∈ (decodeSolution res students weights students.length np).assignments,
        ∃ i, ∃ hi : i < students.length,
          a.studentName = students.get ⟨i, hi⟩ ∧ a.projectIndex < np ∧
          a.weight = (weights.getD i []).getD a.projectIndex 0) := by
  intro res students weights np hnodup hnames hw hopt
  have hgetD : ∀ i (hiw : i < weights.length), weights.getD i [] = weights.get ⟨i, hiw⟩ :=
    fun i hiw => List.getD_eq_get weights [] hiw
  refine ⟨fun i hi j hj => ?_, fun i j hcol => ?_, fun a ha => ?_⟩
  · rw [decodeSolution_assignments hopt, mem_decodeAssignments hw]
    constructor
    · rintro ⟨iq, hiq, jq, hjq, hnameq, hprimq, heq⟩
      have h₁ : students.get ⟨i, hi⟩ = students.get ⟨iq, hiq⟩ :=
        congrArg Assignment.studentName heq
      have h₂ : j = jq := congrArg Assignment.projectIndex heq
      have h₃ : i = iq := congrArg Fin.val (hnodup.get_inj_iff.mp h₁)
      rw [h₂, h₃]
      exact hprimq
    · intro hprim
      refine ⟨i, hi, j, hj, hnames _ (List.get_mem students i hi), hprim, ?_⟩
      rw [hgetD i (by omega)]
  · rw [primalAbove, hcol]
  · rw [decodeSolution_assignments hopt, mem_decodeAssignments hw] at ha
    obtain ⟨i, hi, j, hj, hname, hprim, ha⟩ := ha
    rw [ha]
    exact ⟨i, hi, rfl, hj, by rw [hgetD i (by omega)]⟩

/-- C4 witness: two students, two projects, a result in which `x_0_0`
and `x_1_1` are 1: the Assignment (Ana, project 0, weight 5) is
emitted, `x_0_1` (absent column) fails the threshold test, and every
emitted Assignment carries its original matrix weight. -/
theorem decode_assignment_characterization_witness :
    ((⟨"Ana", 0, 5⟩ : Assignment)
      ∈ (decodeSolution ⟨some "Optimal", some 8, some [("x_0_0", ⟨some 1⟩), ("x_1_1", ⟨some 1⟩)]⟩
          ["Ana", "Bo"] [[5, 0], [0, 3]] 2 2).assignments) ∧
    primalAbove ⟨some "Optimal", some 8, some [("x_0_0", ⟨some 1⟩), ("x_1_1", ⟨some 1⟩)]⟩ 0 1
      = false ∧
    (∃ i, ∃ hi : i < (["Ana", "Bo"] : List String).length,
      (⟨"Ana", 0, 5⟩ : Assignment).studentName = (["Ana", "Bo"] : List String).get ⟨i, hi⟩ ∧
      (⟨"Ana", 0, 5⟩ : Assignment).projectIndex < 2 ∧
      (⟨"Ana", 0, 5⟩ : Assignment).weight
        = (([[5, 0], [0, 3]] : List (List ℚ)).getD i []).getD
            (⟨"Ana", 0, 5⟩ : Assignment).projectIndex 0) := by
  have h := decode_assignment_characterization
    ⟨some "Optimal", some 8, some [("x_0_0", ⟨some 1⟩), ("x_1_1", ⟨some 1⟩)]⟩
    ["Ana", "Bo"] [[5, 0], [0, 3]] 2 (by decide) (by decide) (by decide) (by decide)
  have hmem := (h.1 0 (by decide) 0 (by decide)).mpr (by decide)
  exact ⟨hmem, h.2.1 0 1 (by decide), h.2.2 ⟨"Ana", 0, 5⟩ hmem⟩

/-- C9 counterexample: a re-solve that fails the dimension check (two
capacity records against one project column) returns through the early
`!canSolve` guard, which sets the error message but does not clear the
previously published Solution — a stale Solution survives this failed
re-solve. -/
theorem stale_solution_counterexample :
    (solveRun ⟨false, [⟨"Ana", 0, 5⟩], some 5, "Optimal", ""⟩ 1
        [some [Cell.text "Ana", Cell.num 5]] 2 [⟨0, some 10⟩, ⟨0, some 10⟩]
        (SolverOutcome.returned ⟨some "Infeasible", none, none⟩)).1.errorMessage
      = "Cannot solve: Missing data or project limits" ∧
    (solveRun ⟨false, [⟨"Ana", 0, 5⟩], some 5, "Optimal", ""⟩ 1
        [some [Cell.text "Ana", Cell.num 5]] 2 [⟨0, some 10⟩, ⟨0, some 10⟩]
        (SolverOutcome.returned ⟨some "Infeasible", none, none⟩)).1.solution
      = [⟨"Ana", 0, 5⟩] := by
  decide

/-- C9 (amended): inside the guarded pipeline every error path — no
valid rows, inconsistent weights, solver load/solve failure — clears
the previously published Solution, objective value and busy flag, and
reports the failure as an error message of a total transition (nothing
is raised past the pipeline); but the initial `!canSolve` guard
(missing data or dimension mismatch) returns early, setting only the
error message and leaving the previously published Solution in
place. -/
theorem error_paths_clear_state :
    ∀ (st : SolverState) (tableDataLength : Nat) (rawData : List Row)
      (headersLength : Nat) (limits : List ProjectLimits) (outcome : SolverOutcome),
      (canSolve tableDataLength headersLength limits = false →
        solveRun st tableDataLength rawData headersLength limits outcome
          = ({ st with
                errorMessage := "Cannot solve: Missing data or project limits" }, none)) ∧
      (canSolve tableDataLength headersLength limits = true →
        (solveRun st tableDataLength rawData headersLength limits outcome).2 = none →
        (solveRun st tableDataLength rawData headersLength limits outcome).1.solution = [] ∧
        (solveRun st tableDataLength rawData headersLength limits outcome).1.objectiveValue
          = none ∧
        (solveRun st tableDataLength rawData headersLength limits outcome).1.isSolving
          = false ∧
        ((∃ e, (solveRun st tableDataLength rawData headersLength limits outcome).1.errorMessage
            = solveErrorMessage e) ∨
          (∃ msg, outcome = SolverOutcome.loadOrSolveFailure msg ∧
            (solveRun st tableDataLength rawData headersLength limits outcome).1.errorMessage
              = msg))) := by
  intro st tableDataLength rawData headersLength limits outcome
  constructor
  · intro hguard
    rw [solveRun, if_pos hguard]
  · intro hguard h2
    rcases hbm : buildModel (extractStudents rawData headersLength)
        (extractWeights rawData headersLength) limits with e | lp
    · have hru : solveRun st tableDataLength rawData headersLength limits outcome
          = ({ isSolving := false, solution := [], objectiveValue := none,
                solveStatus := "", errorMessage := solveErrorMessage e }, none) := by
        rw [solveRun, if_neg (by simp [hguard])]
        simp only [hbm]
      rw [hru]
      exact ⟨rfl, rfl, rfl, Or.inl ⟨e, rfl⟩⟩
    · cases outcome with
      | loadOrSolveFailure msg =>
        have hru : solveRun st tableDataLength rawData headersLength limits
            (SolverOutcome.loadOrSolveFailure msg)
            = ({ isSolving := false, solution := [], objectiveValue := none,
                  solveStatus := "", errorMessage := msg }, none) := by
          rw [solveRun, if_neg (by simp [hguard])]
          simp only [hbm]
        rw [hru]
        exact ⟨rfl, rfl, rfl, Or.inr ⟨msg, rfl, rfl⟩⟩
      | returned res =>
        exfalso
        have hru : (solveRun st tableDataLength rawData headersLength limits
            (SolverOutcome.returned res)).2
            = some (decodeSolution res (extractStudents rawData headersLength)
                (extractWeights rawData headersLength)
                (extractStudents rawData headersLength).length limits.length).emitted := by
          rw [solveRun, if_neg (by simp [hguard])]
          simp only [hbm]
        rw [hru] at h2
        exact Option.some_ne_none _ h2

/-- C9 witness: a missing-limits input takes the early-return branch;
a guarded input whose rows are all filtered out takes the
no-valid-students error path, leaving the cleared state. -/
theorem error_paths_clear_state_witness :
    (solveRun ⟨false, [], none, "", ""⟩ 0 [] 1 []
        (SolverOutcome.loadOrSolveFailure "boom")
      = ({ isSolving := false, solution := [], objectiveValue := none, solveStatus := "",
            errorMessage := "Cannot solve: Missing data or project limits" }, none)) ∧
    ((solveRun ⟨false, [], none, "", ""⟩ 1 [some [Cell.text " "]] 2 [⟨0, some 10⟩]
        (SolverOutcome.loadOrSolveFailure "boom")).1.solution = [] ∧
      (solveRun ⟨false, [], none, "", ""⟩ 1 [some [Cell.text " "]] 2 [⟨0, some 10⟩]
        (SolverOutcome.loadOrSolveFailure "boom")).1.objectiveValue = none ∧
      (solveRun ⟨false, [], none, "", ""⟩ 1 [some [Cell.text " "]] 2 [⟨0, some 10⟩]
        (SolverOutcome.loadOrSolveFailure "boom")).1.isSolving = false ∧
      ((∃ e, (solveRun ⟨false, [], none, "", ""⟩ 1 [some [Cell.text " "]] 2 [⟨0, some 10⟩]
          (SolverOutcome.loadOrSolveFailure "boom")).1.errorMessage = solveErrorMessage e) ∨
        (∃ msg, SolverOutcome.loadOrSolveFailure "boom"
            = SolverOutcome.loadOrSolveFailure msg ∧
          (solveRun ⟨false, [], none, "", ""⟩ 1 [some [Cell.text " "]] 2 [⟨0, some 10⟩]
            (SolverOutcome.loadOrSolveFailure "boom")).1.errorMessage = msg))) :=
  ⟨(error_paths_clear_state ⟨false, [], none, "", ""⟩ 0 [] 1 []
      (SolverOutcome.loadOrSolveFailure "boom")).1 (by decide),
    (error_paths_clear_state ⟨false, [], none, "", ""⟩ 1 [some [Cell.text " "]] 2
      [⟨0, some 10⟩] (SolverOutcome.loadOrSolveFailure "boom")).2 (by decide) (by decide)⟩

end PlanMagic
